import Mathlib

/-!
Verification of the anchor-litesvm instruction-building and transaction layer.

This file is a shallow embedding of `src/anchor-litesvm/src/instruction_builder.rs`
and `src/anchor-litesvm/src/transaction.rs`: the fluent `InstructionBuilder`,
Anchor discriminator derivation, Borsh-style tuple argument serialization,
transaction submission helpers, and log scraping for compute units.

Bytes are modelled as `Nat` (values below 256), addresses (`Pubkey`) as `Nat`,
and the builder's `HashMap<String, usize>` as a function `String → Option Nat`
updated by insertion, so that a later insertion under the same key overrides
the earlier binding, matching `HashMap::insert`. Log lines are `List Char`,
mirroring Rust string slices.
-/

/-! ## SHA-256

The crate derives the 8-byte Anchor discriminator as the first 8 bytes of
`Sha256("global:" ++ name)`; the reference computation appears in
`examples/basic_usage.rs` (`traditional_approach`). We model SHA-256 (FIPS
180-4) over byte lists, with 32-bit words as `Nat` reduced modulo `2^32`.
-/

/-- Truncate a natural number to 32 bits. -/
def w32 (n : Nat) : Nat := n % 4294967296

/-- Rotate a 32-bit word right by `r` bits. -/
def rotr32 (r x : Nat) : Nat := w32 ((x >>> r) ||| (x <<< (32 - r)))

/-- Lowercase sigma-0 of the SHA-256 message schedule. -/
def wsg0 (x : Nat) : Nat := w32 ((rotr32 7 x) ^^^ (rotr32 18 x) ^^^ (x >>> 3))

/-- Lowercase sigma-1 of the SHA-256 message schedule. -/
def wsg1 (x : Nat) : Nat := w32 ((rotr32 17 x) ^^^ (rotr32 19 x) ^^^ (x >>> 10))

/-- Uppercase Sigma-0 of the SHA-256 compression function. -/
def csg0 (x : Nat) : Nat := w32 ((rotr32 2 x) ^^^ (rotr32 13 x) ^^^ (rotr32 22 x))

/-- Uppercase Sigma-1 of the SHA-256 compression function. -/
def csg1 (x : Nat) : Nat := w32 ((rotr32 6 x) ^^^ (rotr32 11 x) ^^^ (rotr32 25 x))

/-- The 64 SHA-256 round constants. -/
def K256 : List Nat :=
  [1116352408, 1899447441, 3049323471, 3921009573,
   961987163, 1508970993, 2453635748, 2870763221,
   3624381080, 310598401, 607225278, 1426881987,
   1925078388, 2162078206, 2614888103, 3248222580,
   3835390401, 4022224774, 264347078, 604807628,
   770255983, 1249150122, 1555081692, 1996064986,
   2554220882, 2821834349, 2952996808, 3210313671,
   3336571891, 3584528711, 113926993, 338241895,
   666307205, 773529912, 1294757372, 1396182291,
   1695183700, 1986661051, 2177026350, 2456956037,
   2730485921, 2820302411, 3259730800, 3345764771,
   3516065817, 3600352804, 4094571909, 275423344,
   430227734, 506948616, 659060556, 883997877,
   958139571, 1322822218, 1537002063, 1747873779,
   1955562222, 2024104815, 2227730452, 2361852424,
   2428436474, 2756734187, 3204031479, 3329325298]

/-- The eight 32-bit working variables of the SHA-256 state. -/
structure Hash8 where
  a : Nat
  b : Nat
  c : Nat
  d : Nat
  e : Nat
  f : Nat
  g : Nat
  h : Nat

/-- Initial SHA-256 hash state. -/
def initHash : Hash8 :=
  ⟨1779033703, 3144134277, 1013904242, 2773480762, 1359893119, 2600822924, 528734635, 1541459225⟩

/-- Big-endian 8-byte encoding of a 64-bit length value. -/
def be64 (n : Nat) : List Nat :=
  [(n >>> 56) % 256, (n >>> 48) % 256, (n >>> 40) % 256, (n >>> 32) % 256,
   (n >>> 24) % 256, (n >>> 16) % 256, (n >>> 8) % 256, n % 256]

/-- Big-endian 4-byte encoding of a 32-bit word. -/
def be32 (n : Nat) : List Nat :=
  [(n >>> 24) % 256, (n >>> 16) % 256, (n >>> 8) % 256, n % 256]

/-- SHA-256 padding: append `0x80`, zeros, and the 64-bit bit length, so the
total length is a multiple of 64 bytes. -/
def padMessage (msg : List Nat) : List Nat :=
  msg ++ [128] ++ List.replicate ((55 + 64 - msg.length % 64) % 64) 0 ++ be64 (8 * msg.length)

/-- Combine four bytes into one big-endian 32-bit word. -/
def be32Word (b0 b1 b2 b3 : Nat) : Nat := ((b0 * 256 + b1) * 256 + b2) * 256 + b3

/-- Split a byte list into big-endian 32-bit words. -/
def toWords : List Nat → List Nat
  | b0 :: b1 :: b2 :: b3 :: rest => be32Word b0 b1 b2 b3 :: toWords rest
  | _ => []

/-- Extend the 16-word block to the 64-word SHA-256 message schedule. -/
def extendSchedule (ws : List Nat) : List Nat :=
  (List.range 48).foldl
    (fun acc _ =>
      let n := acc.length
      acc ++ [w32 (wsg1 (acc.getD (n - 2) 0) + acc.getD (n - 7) 0 +
                   wsg0 (acc.getD (n - 15) 0) + acc.getD (n - 16) 0)])
    ws

/-- One SHA-256 compression round. -/
def shaRound (st : Hash8) (ki wi : Nat) : Hash8 :=
  let ch := (st.e &&& st.f) ^^^ ((st.e ^^^ 4294967295) &&& st.g)
  let temp1 := w32 (st.h + csg1 st.e + ch + ki + wi)
  let maj := (st.a &&& st.b) ^^^ (st.a &&& st.c) ^^^ (st.b &&& st.c)
  let temp2 := w32 (csg0 st.a + maj)
  ⟨w32 (temp1 + temp2), st.a, st.b, st.c, w32 (st.d + temp1), st.e, st.f, st.g⟩

/-- Compress one 64-byte block into the running hash state. -/
def compressBlock (h0 : Hash8) (block : List Nat) : Hash8 :=
  let ws := extendSchedule (toWords block)
  let st := (List.range 64).foldl (fun st i => shaRound st (K256.getD i 0) (ws.getD i 0)) h0
  ⟨w32 (h0.a + st.a), w32 (h0.b + st.b), w32 (h0.c + st.c), w32 (h0.d + st.d),
   w32 (h0.e + st.e), w32 (h0.f + st.f), w32 (h0.g + st.g), w32 (h0.h + st.h)⟩

/-- Split a byte list into 64-byte chunks; the first argument is fuel. -/
def chunk64 : Nat → List Nat → List (List Nat)
  | 0, _ => []
  | _, [] => []
  | fuel + 1, l => l.take 64 :: chunk64 fuel (l.drop 64)

/-- Serialize the final hash state as 32 big-endian bytes. -/
def hashBytes (st : Hash8) : List Nat :=
  be32 st.a ++ be32 st.b ++ be32 st.c ++ be32 st.d ++
  be32 st.e ++ be32 st.f ++ be32 st.g ++ be32 st.h

/-- SHA-256 digest of a byte list. -/
def sha256 (msg : List Nat) : List Nat :=
  let padded := padMessage msg
  hashBytes ((chunk64 padded.length padded).foldl compressBlock initHash)

/-- UTF-8 bytes of a string, as natural numbers. -/
def utf8Bytes (s : String) : List Nat := s.toUTF8.toList.map (fun b => b.toNat)

/-- Modelled from the spec: the Selector Deriver `calculate_anchor_discriminator`
lives in `src/instruction.rs`, which is not among the provided sources; per spec
section 4.1 and the reference computation in `examples/basic_usage.rs`
(`traditional_approach`), it hashes the namespaced byte string `"global:<name>"`
with SHA-256 and takes the first 8 digest bytes, preserving digest byte order. -/
def calculate_anchor_discriminator (name : String) : List Nat :=
  (sha256 (utf8Bytes ("global:" ++ name))).take 8

/-! ## Data model: accounts, keypairs, instructions

Mirrors `solana_program::instruction::AccountMeta` / `Instruction` and
`solana_sdk::signature::Keypair` to the extent the crate uses them.
-/

/-- An account address (Solana `Pubkey`), abstracted to a natural number. -/
abbrev Pubkey := Nat

/-- Account metadata: `solana_program::instruction::AccountMeta`. -/
structure AccountMeta where
  pubkey : Pubkey
  is_signer : Bool
  is_writable : Bool
deriving DecidableEq, Repr

/-- Constructor `AccountMeta::new`: writable account. -/
def AccountMeta.new (pk : Pubkey) (s : Bool) : AccountMeta := ⟨pk, s, true⟩

/-- Constructor `AccountMeta::new_readonly`: read-only account. -/
def AccountMeta.new_readonly (pk : Pubkey) (s : Bool) : AccountMeta := ⟨pk, s, false⟩

/-- A signing keypair, reduced to its public key (the crate only ever reads
`keypair.pubkey()` and hands the keypair to the signing collaborator). -/
structure Keypair where
  pubkey : Pubkey
deriving DecidableEq, Repr

/-- An encoded instruction: `solana_program::instruction::Instruction`. -/
structure Instruction where
  program_id : Pubkey
  accounts : List AccountMeta
  data : List Nat
deriving DecidableEq, Repr

/-! ## The fluent InstructionBuilder (`instruction_builder.rs`) -/

/-- State of `InstructionBuilder`: the named positional account list, the
name-to-position map, and the data buffer. -/
structure InstructionBuilder where
  program_id : Pubkey
  instruction_name : String
  accounts : List (String × AccountMeta)
  account_indices : String → Option Nat
  data : List Nat

/-- Insertion into the modelled `HashMap<String, usize>`: the new binding
overrides any earlier binding for the same key. -/
def mapInsert (m : String → Option Nat) (k : String) (v : Nat) : String → Option Nat :=
  fun x => if x = k then some v else m x

/-- Constructor `InstructionBuilder::new`. -/
def InstructionBuilder.new (pid : Pubkey) (name : String) : InstructionBuilder :=
  ⟨pid, name, [], fun _ => none, []⟩

/-- Method `account`: append a read-only non-signer and record its position. -/
def InstructionBuilder.account (b : InstructionBuilder) (name : String) (pk : Pubkey) :
    InstructionBuilder :=
  { b with accounts := b.accounts ++ [(name, AccountMeta.new_readonly pk false)],
           account_indices := mapInsert b.account_indices name b.accounts.length }

/-- Method `account_mut`: append a writable non-signer and record its position. -/
def InstructionBuilder.account_mut (b : InstructionBuilder) (name : String) (pk : Pubkey) :
    InstructionBuilder :=
  { b with accounts := b.accounts ++ [(name, AccountMeta.new pk false)],
           account_indices := mapInsert b.account_indices name b.accounts.length }

/-- Method `signer`: append a writable signer and record its position. -/
def InstructionBuilder.signer (b : InstructionBuilder) (name : String) (kp : Keypair) :
    InstructionBuilder :=
  { b with accounts := b.accounts ++ [(name, AccountMeta.new kp.pubkey true)],
           account_indices := mapInsert b.account_indices name b.accounts.length }

/-- Method `signer_readonly`: append a read-only signer and record its position. -/
def InstructionBuilder.signer_readonly (b : InstructionBuilder) (name : String) (kp : Keypair) :
    InstructionBuilder :=
  { b with accounts := b.accounts ++ [(name, AccountMeta.new_readonly kp.pubkey true)],
           account_indices := mapInsert b.account_indices name b.accounts.length }

/-- Method `args`: overwrite the data buffer with the discriminator of the
builder's instruction name followed by the serialized argument bytes. The
serialization of the argument value is taken as the byte list `argBytes`
(serialization is a pure function of the value; see the tuple serializers
below for the shapes the crate implements). -/
def InstructionBuilder.args (b : InstructionBuilder) (argBytes : List Nat) :
    InstructionBuilder :=
  { b with data := calculate_anchor_discriminator b.instruction_name ++ argBytes }

/-- Method `build`: fail when the data buffer is empty, otherwise produce the
immutable instruction, dropping the account names. -/
def InstructionBuilder.build (b : InstructionBuilder) : Except String Instruction :=
  if b.data = [] then
    Except.error "No instruction data provided. Call .args() before .build()"
  else
    Except.ok ⟨b.program_id, b.accounts.map Prod.snd, b.data⟩

/-- Method `get_account`: look the name up in the index map, then fetch the
positional entry. -/
def InstructionBuilder.get_account (b : InstructionBuilder) (name : String) :
    Option AccountMeta :=
  ((b.account_indices name).bind (fun i => b.accounts[i]?)).map Prod.snd

/-- Method `accounts()`: the account metadata in positional order. -/
def InstructionBuilder.accountsView (b : InstructionBuilder) : List AccountMeta :=
  b.accounts.map Prod.snd

/-! ## Call sequences on a builder -/

/-- One account-adding call on the builder. -/
inductive BuildCall where
  | account (name : String) (pk : Pubkey)
  | account_mut (name : String) (pk : Pubkey)
  | signer (name : String) (kp : Keypair)
  | signer_readonly (name : String) (kp : Keypair)
deriving DecidableEq, Repr

/-- The name under which a call inserts its account. -/
def callName : BuildCall → String
  | .account n _ => n
  | .account_mut n _ => n
  | .signer n _ => n
  | .signer_readonly n _ => n

/-- The account metadata the specification assigns to each method: `account`
read-only non-signer, `account_mut` writable non-signer, `signer` writable
signer, `signer_readonly` read-only signer. -/
def callMeta : BuildCall → AccountMeta
  | .account _ pk => ⟨pk, false, false⟩
  | .account_mut _ pk => ⟨pk, false, true⟩
  | .signer _ kp => ⟨kp.pubkey, true, true⟩
  | .signer_readonly _ kp => ⟨kp.pubkey, true, false⟩

/-- Apply one account-adding call to the builder. -/
def applyCall (b : InstructionBuilder) : BuildCall → InstructionBuilder
  | .account n pk => b.account n pk
  | .account_mut n pk => b.account_mut n pk
  | .signer n kp => b.signer n kp
  | .signer_readonly n kp => b.signer_readonly n kp

/-- Run a sequence of account-adding calls. -/
def runCalls (b : InstructionBuilder) (cs : List BuildCall) : InstructionBuilder :=
  cs.foldl applyCall b

/-- Position of the most recent call inserting under name `n`. -/
def lastPos (n : String) : List BuildCall → Option Nat
  | [] => none
  | c :: cs =>
    match lastPos n cs with
    | some k => some (k + 1)
    | none => if callName c = n then some 0 else none

/-- The most recent call inserting under name `n`. -/
def lastCall (n : String) : List BuildCall → Option BuildCall
  | [] => none
  | c :: cs =>
    match lastCall n cs with
    | some x => some x
    | none => if callName c = n then some c else none

/-- One builder step: an account-adding call or an `args` call carrying the
serialized argument bytes. -/
inductive Step where
  | call (c : BuildCall)
  | args (bytes : List Nat)
deriving DecidableEq, Repr

/-- Apply one step to the builder. -/
def applyStep (b : InstructionBuilder) : Step → InstructionBuilder
  | .call c => applyCall b c
  | .args bs => b.args bs

/-- Run a sequence of steps. -/
def runSteps (b : InstructionBuilder) (steps : List Step) : InstructionBuilder :=
  steps.foldl applyStep b

/-- Whether a step is an `args` call. -/
def isArgsStep : Step → Bool
  | .call _ => false
  | .args _ => true

/-- Whether any step in the sequence is an `args` call. -/
def hasArgsStep (steps : List Step) : Bool := steps.any isArgsStep

/-- The bytes of the most recent `args` call, if any. -/
def lastArgs : List Step → Option (List Nat)
  | [] => none
  | Step.call _ :: rest => lastArgs rest
  | Step.args bs :: rest =>
    match lastArgs rest with
    | some x => some x
    | none => some bs

/-- The named account entry a step appends, if it is an account-adding call. -/
def stepEntry : Step → Option (String × AccountMeta)
  | .call c => some (callName c, callMeta c)
  | .args _ => none

/-- The account metadata a step appends, if it is an account-adding call. -/
def stepMeta : Step → Option AccountMeta
  | .call c => some (callMeta c)
  | .args _ => none

/-! ## Borsh-style tuple serialization (`TupleArgs` impls)

Rust serializes into a growing `Vec<u8>` writer; writing is concatenation, so
each `TupleArgs` impl is modelled as the function it computes on the buffer.
Element serializers are passed explicitly, standing for the `AnchorSerialize`
dictionaries of the element types.
-/

/-- Borsh encoding of a `u64`: 8 little-endian bytes of the value mod `2^64`. -/
def u64le (n : Nat) : List Nat :=
  [n % 256, (n >>> 8) % 256, (n >>> 16) % 256, (n >>> 24) % 256,
   (n >>> 32) % 256, (n >>> 40) % 256, (n >>> 48) % 256, (n >>> 56) % 256]

/-- Serialization of `TupleArgs<()>`: writes nothing. -/
def tupleSer0 : List Nat := []

/-- Serialization of `TupleArgs<(T1,)>`. -/
def tupleSer1 {α : Type} (s1 : α → List Nat) (t : α) : List Nat := s1 t

/-- Serialization of `TupleArgs<(T1, T2)>`. -/
def tupleSer2 {α β : Type} (s1 : α → List Nat) (s2 : β → List Nat) (t : α × β) : List Nat :=
  s1 t.1 ++ s2 t.2

/-- Serialization of `TupleArgs<(T1, T2, T3)>`. -/
def tupleSer3 {α β γ : Type} (s1 : α → List Nat) (s2 : β → List Nat) (s3 : γ → List Nat)
    (t : α × β × γ) : List Nat :=
  s1 t.1 ++ s2 t.2.1 ++ s3 t.2.2

/-- Serialization of `TupleArgs<(T1, T2, T3, T4)>`. -/
def tupleSer4 {α β γ δ : Type} (s1 : α → List Nat) (s2 : β → List Nat) (s3 : γ → List Nat)
    (s4 : δ → List Nat) (t : α × β × γ × δ) : List Nat :=
  s1 t.1 ++ s2 t.2.1 ++ s3 t.2.2.1 ++ s4 t.2.2.2

/-! ## Transaction layer (`transaction.rs`) -/

/-- Error type `TransactionError` of `transaction.rs`. -/
inductive TransactionError where
  | ExecutionFailed (msg : String)
  | BuildError (msg : String)
deriving DecidableEq, Repr

/-- LiteSVM transaction metadata, reduced to the log lines the crate reads. -/
structure TransactionMetadata where
  logs : List (List Char)
deriving DecidableEq, Repr

/-- Wrapper `TransactionResult` around the metadata. -/
structure TransactionResult where
  inner : TransactionMetadata
  instruction_name : Option String
deriving DecidableEq, Repr

/-- A signed transaction as assembled by `Transaction::new_signed_with_payer`:
instructions, fee payer, signer public keys, and the recent blockhash. -/
structure Transaction where
  instructions : List Instruction
  payer : Option Pubkey
  signer_keys : List Pubkey
  recent_blockhash : Nat
deriving DecidableEq, Repr

/-- Assembly `Transaction::new_signed_with_payer`. -/
def Transaction.new_signed_with_payer (instrs : List Instruction) (payer : Option Pubkey)
    (signers : List Keypair) (blockhash : Nat) : Transaction :=
  ⟨instrs, payer, signers.map Keypair.pubkey, blockhash⟩

/-- The simulated environment (LiteSVM) as an opaque state machine: a current
blockhash and a state-passing `send_transaction`. The crate treats both as
collaborator services. -/
structure SvmModel (σ : Type) where
  latest_blockhash : σ → Nat
  send_transaction : σ → Transaction → Except String TransactionMetadata × σ

/-- Trait method `TransactionHelpers::send_instructions`: fail fast when no
signers are given, otherwise assemble a transaction paid by the first signer
at the current blockhash and submit it. -/
def send_instructions {σ : Type} (M : SvmModel σ) (st : σ) (instructions : List Instruction)
    (signers : List Keypair) : Except TransactionError TransactionResult × σ :=
  match signers with
  | [] => (Except.error (TransactionError.BuildError "No signers provided"), st)
  | payer :: _ =>
    let tx := Transaction.new_signed_with_payer instructions (some payer.pubkey) signers
      (M.latest_blockhash st)
    match M.send_transaction st tx with
    | (Except.ok meta, st2) => (Except.ok ⟨meta, none⟩, st2)
    | (Except.error e, st2) => (Except.error (TransactionError.ExecutionFailed e), st2)

/-- Trait method `TransactionHelpers::send_instruction`: delegates to
`send_instructions` with a singleton instruction list. -/
def send_instruction {σ : Type} (M : SvmModel σ) (st : σ) (instruction : Instruction)
    (signers : List Keypair) : Except TransactionError TransactionResult × σ :=
  send_instructions M st [instruction] signers

/-! ## Log scraping (`TransactionResult::compute_units`)

Rust string operations are modelled on `List Char`: `contains` is substring
search, `split` is leftmost non-overlapping splitting on a pattern, `trim`
drops whitespace at both ends, and `parse::<u64>` accepts an optional leading
plus sign followed by decimal digits, rejecting overflow past `2^64 - 1`.
-/

/-- Whether `p` is an initial segment of `s`. -/
def startsWithL : List Char → List Char → Bool
  | [], _ => true
  | _ :: _, [] => false
  | p :: ps, c :: cs => p = c && startsWithL ps cs

/-- Whether the pattern occurs in `s` starting at index `i`. -/
def occursAtB (pat s : List Char) (i : Nat) : Bool := startsWithL pat (s.drop i)

/-- Index of the first occurrence of the pattern in `s`. -/
def findOcc (pat : List Char) : List Char → Option Nat
  | [] => if startsWithL pat [] then some 0 else none
  | c :: t => if startsWithL pat (c :: t) then some 0 else (findOcc pat t).map (fun i => i + 1)

/-- Substring containment, Rust `str::contains`. -/
def containsSub (pat s : List Char) : Bool := (findOcc pat s).isSome

/-- Fueled splitting worker: cut at the first occurrence of the pattern and
recurse on the remainder past the match. -/
def splitGo (pat : List Char) : Nat → List Char → List (List Char)
  | 0, s => [s]
  | fuel + 1, s =>
    match findOcc pat s with
    | none => [s]
    | some i => s.take i :: splitGo pat fuel (s.drop (i + pat.length))

/-- Rust `str::split(pat)` for a non-empty pattern: the fuel `s.length + 1`
always suffices because each match consumes at least one element. -/
def splitOnSub (pat s : List Char) : List (List Char) := splitGo pat (s.length + 1) s

/-- Rust `str::trim`, over the ASCII whitespace appearing in logs. -/
def trimL (s : List Char) : List Char :=
  ((s.dropWhile Char.isWhitespace).reverse.dropWhile Char.isWhitespace).reverse

/-- Decimal value of a digit list. -/
def digitsVal (s : List Char) : Nat := s.foldl (fun acc c => acc * 10 + (c.toNat - 48)) 0

/-- Rust `str::parse::<u64>`: optional leading plus sign, then one or more
decimal digits, rejecting values of `2^64` or more. -/
def parseU64 (s : List Char) : Option Nat :=
  let t := match s with
    | '+' :: r => r
    | _ => s
  if t ≠ [] ∧ t.all Char.isDigit = true ∧ digitsVal t < 18446744073709551616 then
    some (digitsVal t)
  else none

/-- Marker token `"consumed"`. -/
def CONSUMED : List Char := "consumed".data

/-- Marker token `"compute units"`. -/
def CUNITS : List Char := "compute units".data

/-- Marker token `"of"`. -/
def OFTOK : List Char := "of".data

/-- Per-line extraction step of `compute_units`: when the line contains both
markers, take the text after the first `"consumed"` (up to the next one),
keep what precedes the first `"of"` in it, trim, and parse as `u64`. -/
def extractUnits (log : List Char) : Option Nat :=
  if containsSub CONSUMED log && containsSub CUNITS log then
    match (splitOnSub CONSUMED log)[1]? with
    | some consumedPart =>
      match (splitOnSub OFTOK consumedPart).head? with
      | some numberPart => parseU64 (trimL numberPart)
      | none => none
    | none => none
  else none

/-- Loop of `TransactionResult::compute_units`: return the first successful
extraction, or 0 when every line falls through. -/
def computeUnitsLogs : List (List Char) → Nat
  | [] => 0
  | log :: rest =>
    match extractUnits log with
    | some u => u
    | none => computeUnitsLogs rest

/-- Method `TransactionResult::compute_units`. -/
def TransactionResult.compute_units (r : TransactionResult) : Nat :=
  computeUnitsLogs r.inner.logs

/-! ## Theorems -/

/-- The SHA-256 digest always has exactly 32 bytes. -/
theorem sha256_length (msg : List Nat) : (sha256 msg).length = 32 := by
  simp [sha256, hashBytes, be32]

/-- The Anchor discriminator always has exactly 8 bytes. -/
theorem discriminator_length (name : String) :
    (calculate_anchor_discriminator name).length = 8 := by
  simp [calculate_anchor_discriminator, sha256_length]

theorem applyCall_accounts (b : InstructionBuilder) (c : BuildCall) :
    (applyCall b c).accounts = b.accounts ++ [(callName c, callMeta c)] := by
  cases c <;> rfl

theorem applyCall_indices (b : InstructionBuilder) (c : BuildCall) :
    (applyCall b c).account_indices =
      mapInsert b.account_indices (callName c) b.accounts.length := by
  cases c <;> rfl

theorem applyCall_name (b : InstructionBuilder) (c : BuildCall) :
    (applyCall b c).instruction_name = b.instruction_name := by
  cases c <;> rfl

theorem applyCall_pid (b : InstructionBuilder) (c : BuildCall) :
    (applyCall b c).program_id = b.program_id := by
  cases c <;> rfl

theorem applyCall_data (b : InstructionBuilder) (c : BuildCall) :
    (applyCall b c).data = b.data := by
  cases c <;> rfl

theorem runCalls_cons (b : InstructionBuilder) (c : BuildCall) (cs : List BuildCall) :
    runCalls b (c :: cs) = runCalls (applyCall b c) cs := rfl

theorem runCalls_accounts (cs : List BuildCall) : ∀ b : InstructionBuilder,
    (runCalls b cs).accounts = b.accounts ++ cs.map (fun c => (callName c, callMeta c)) := by
  induction cs with
  | nil => intro b; simp [runCalls]
  | cons c cs ih =>
    intro b
    rw [runCalls_cons, ih, applyCall_accounts]
    simp

theorem runCalls_indices (cs : List BuildCall) : ∀ (b : InstructionBuilder) (n : String),
    (runCalls b cs).account_indices n =
      match lastPos n cs with
      | some k => some (b.accounts.length + k)
      | none => b.account_indices n := by
  induction cs with
  | nil => intro b n; simp [runCalls, lastPos]
  | cons c cs ih =>
    intro b n
    rw [runCalls_cons, ih]
    cases h : lastPos n cs with
    | some k =>
      rw [applyCall_accounts]
      simp [lastPos, h]
      omega
    | none =>
      rw [applyCall_indices]
      by_cases hn : callName c = n
      · simp [lastPos, h, hn, mapInsert]
      · have hn2 : ¬(n = callName c) := fun he => hn he.symm
        simp [lastPos, h, hn, hn2, mapInsert]

theorem lastPos_none_lastCall (n : String) (cs : List BuildCall)
    (h : lastPos n cs = none) : lastCall n cs = none := by
  induction cs with
  | nil => rfl
  | cons c cs ih =>
    unfold lastPos at h
    cases hp : lastPos n cs with
    | some k => rw [hp] at h; simp at h
    | none =>
      rw [hp] at h
      simp only at h
      by_cases hn : callName c = n
      · simp [hn] at h
      · simp [lastCall, ih hp, hn]

theorem lastPos_get (n : String) (cs : List BuildCall) : ∀ k, lastPos n cs = some k →
    ∃ c, lastCall n cs = some c ∧ cs[k]? = some c ∧ callName c = n := by
  induction cs with
  | nil => intro k h; simp [lastPos] at h
  | cons c cs ih =>
    intro k h
    unfold lastPos at h
    cases hp : lastPos n cs with
    | some k0 =>
      rw [hp] at h
      simp only [Option.some.injEq] at h
      obtain ⟨c0, hc0, hget, hn⟩ := ih k0 hp
      exact ⟨c0, by simp [lastCall, hc0], by simp [← h, hget], hn⟩
    | none =>
      rw [hp] at h
      simp only at h
      by_cases hn : callName c = n
      · simp [hn] at h
        refine ⟨c, ?_, ?_, hn⟩
        · simp [lastCall, lastPos_none_lastCall n cs hp, hn]
        · simp [← h]
      · simp [hn] at h

theorem accountsView_runCalls (pid : Pubkey) (nm : String) (cs : List BuildCall) :
    (runCalls (InstructionBuilder.new pid nm) cs).accountsView = cs.map callMeta := by
  unfold InstructionBuilder.accountsView
  rw [runCalls_accounts]
  simp [InstructionBuilder.new]

theorem get_account_runCalls (pid : Pubkey) (nm : String) (cs : List BuildCall) (n : String) :
    (runCalls (InstructionBuilder.new pid nm) cs).get_account n =
      (lastCall n cs).map callMeta := by
  unfold InstructionBuilder.get_account
  rw [runCalls_indices, runCalls_accounts]
  cases h : lastPos n cs with
  | none => simp [lastPos_none_lastCall n cs h, InstructionBuilder.new]
  | some k =>
    obtain ⟨c, hc, hget, hn⟩ := lastPos_get n cs k h
    simp [InstructionBuilder.new, hc, List.getElem?_map, hget]

/-- C1: for every sequence of `account` / `account_mut` / `signer` /
`signer_readonly` calls, `accounts()` lists the metadata in call order, and
each entry carries the flags of the method that added it: `account` read-only
non-signer, `account_mut` writable non-signer, `signer` writable signer,
`signer_readonly` read-only signer. -/
theorem claim_C1 (pid : Pubkey) (nm : String) (cs : List BuildCall) :
    (runCalls (InstructionBuilder.new pid nm) cs).accountsView = cs.map callMeta :=
  accountsView_runCalls pid nm cs

/-- C9: calling `args` twice leaves the builder exactly as a single call with
the second value would; the stored data is the 8-byte discriminator followed
by the second value's bytes, with no accumulation of the first value. -/
theorem claim_C9 (b : InstructionBuilder) (v1 v2 : List Nat) :
    (b.args v1).args v2 = b.args v2 ∧
    (b.args v2).data = calculate_anchor_discriminator b.instruction_name ++ v2 ∧
    (calculate_anchor_discriminator b.instruction_name).length = 8 :=
  ⟨rfl, rfl, discriminator_length b.instruction_name⟩

/-- C3: discriminator derivation is a pure total function of the name: it
always equals the first 8 bytes (in digest order) of the SHA-256 digest of
the namespaced byte string `global:<name>`, and always has exactly 8 bytes. -/
theorem claim_C3 (name : String) (h : name ≠ "") :
    calculate_anchor_discriminator name =
      (sha256 (utf8Bytes ("global:" ++ name))).take 8 ∧
    (calculate_anchor_discriminator name).length = 8 :=
  ⟨rfl, discriminator_length name⟩

/-- Witness for C3 at the concrete name `make`. -/
theorem claim_C3_witness :
    ("make" ≠ "") ∧
    (calculate_anchor_discriminator "make" =
      (sha256 (utf8Bytes ("global:" ++ "make"))).take 8 ∧
    (calculate_anchor_discriminator "make").length = 8) :=
  ⟨by decide, claim_C3 "make" (by decide)⟩

/-- C5: submitting any instruction list with an empty signer list fails with
`BuildError ("No signers provided")` and returns the environment state
unchanged; the quantification over the environment model shows
`send_transaction` is never consulted. -/
theorem claim_C5 {σ : Type} (M : SvmModel σ) (st : σ) (instrs : List Instruction) :
    send_instructions M st instrs [] =
      (Except.error (TransactionError.BuildError "No signers provided"), st) := rfl

/-- C10: `send_instruction` is observationally equivalent to
`send_instructions` on the singleton list: same result and same effect on the
environment state. -/
theorem claim_C10 {σ : Type} (M : SvmModel σ) (st : σ) (i : Instruction)
    (signers : List Keypair) :
    send_instruction M st i signers = send_instructions M st [i] signers := rfl

theorem applyStep_name (b : InstructionBuilder) (s : Step) :
    (applyStep b s).instruction_name = b.instruction_name := by
  cases s with
  | call c => exact applyCall_name b c
  | args bs => rfl

theorem applyStep_pid (b : InstructionBuilder) (s : Step) :
    (applyStep b s).program_id = b.program_id := by
  cases s with
  | call c => exact applyCall_pid b c
  | args bs => rfl

theorem applyStep_accounts (b : InstructionBuilder) (s : Step) :
    (applyStep b s).accounts = b.accounts ++ (stepEntry s).toList := by
  cases s with
  | call c => simp [applyStep, stepEntry, applyCall_accounts]
  | args bs => simp [applyStep, stepEntry, InstructionBuilder.args]

theorem runSteps_cons (b : InstructionBuilder) (s : Step) (steps : List Step) :
    runSteps b (s :: steps) = runSteps (applyStep b s) steps := rfl

theorem runSteps_name (steps : List Step) : ∀ b : InstructionBuilder,
    (runSteps b steps).instruction_name = b.instruction_name := by
  induction steps with
  | nil => intro b; rfl
  | cons s steps ih => intro b; rw [runSteps_cons, ih, applyStep_name]

theorem runSteps_pid (steps : List Step) : ∀ b : InstructionBuilder,
    (runSteps b steps).program_id = b.program_id := by
  induction steps with
  | nil => intro b; rfl
  | cons s steps ih => intro b; rw [runSteps_cons, ih, applyStep_pid]

theorem runSteps_accounts (steps : List Step) : ∀ b : InstructionBuilder,
    (runSteps b steps).accounts = b.accounts ++ steps.filterMap stepEntry := by
  induction steps with
  | nil => intro b; simp [runSteps]
  | cons s steps ih =>
    intro b
    rw [runSteps_cons, ih, applyStep_accounts]
    cases s with
    | call c => simp [stepEntry]
    | args bs => simp [stepEntry]

theorem runSteps_data (steps : List Step) : ∀ b : InstructionBuilder,
    (runSteps b steps).data =
      match lastArgs steps with
      | some bs => calculate_anchor_discriminator b.instruction_name ++ bs
      | none => b.data := by
  induction steps with
  | nil => intro b; simp [runSteps, lastArgs]
  | cons s steps ih =>
    intro b
    rw [runSteps_cons, ih]
    cases s with
    | call c =>
      cases h : lastArgs steps <;>
        simp [lastArgs, h, applyStep, applyCall_name, applyCall_data]
    | args bs =>
      cases h : lastArgs steps <;>
        simp [lastArgs, h, applyStep, InstructionBuilder.args]

theorem lastArgs_none_iff (steps : List Step) :
    lastArgs steps = none ↔ hasArgsStep steps = false := by
  induction steps with
  | nil => simp [lastArgs, hasArgsStep]
  | cons s steps ih =>
    cases s with
    | call c => simp [lastArgs, hasArgsStep, isArgsStep] at ih ⊢; exact ih
    | args bs =>
      cases h : lastArgs steps <;>
        simp [lastArgs, hasArgsStep, isArgsStep, h]

theorem build_runSteps (pid : Pubkey) (nm : String) (steps : List Step) :
    (runSteps (InstructionBuilder.new pid nm) steps).build =
      if hasArgsStep steps then
        Except.ok ⟨pid, steps.filterMap stepMeta,
          calculate_anchor_discriminator nm ++ (lastArgs steps).getD []⟩
      else Except.error "No instruction data provided. Call .args() before .build()" := by
  unfold InstructionBuilder.build
  rw [runSteps_data, runSteps_accounts, runSteps_pid]
  cases h : lastArgs steps with
  | none =>
    have hh : hasArgsStep steps = false := (lastArgs_none_iff steps).mp h
    simp [InstructionBuilder.new, hh]
  | some bs =>
    have hh : hasArgsStep steps = true := by
      cases hb : hasArgsStep steps with
      | false => rw [(lastArgs_none_iff steps).mpr hb] at h; simp at h
      | true => rfl
    have hne : calculate_anchor_discriminator nm ++ bs ≠ [] := by
      intro he
      have := congrArg List.length he
      rw [List.length_append, discriminator_length] at this
      simp at this
    have hmap : (steps.filterMap stepEntry).map Prod.snd = steps.filterMap stepMeta := by
      rw [List.map_filterMap]
      congr 1
      funext s
      cases s <;> rfl
    simp [InstructionBuilder.new, hh, hne, hmap]

/-- C4: building with no preceding `args` call fails with the build error;
building after at least one `args` call (even with empty serialized bytes,
where the data is the 8-byte discriminator alone) succeeds with the accounts
in insertion order and the discriminator-prefixed data. -/
theorem claim_C4 (pid : Pubkey) (nm : String) (steps : List Step) :
    (hasArgsStep steps = false →
      (runSteps (InstructionBuilder.new pid nm) steps).build =
        Except.error "No instruction data provided. Call .args() before .build()") ∧
    (hasArgsStep steps = true →
      (runSteps (InstructionBuilder.new pid nm) steps).build =
        Except.ok ⟨pid, steps.filterMap stepMeta,
          calculate_anchor_discriminator nm ++ (lastArgs steps).getD []⟩) := by
  constructor <;> intro h <;> rw [build_runSteps] <;> simp [h]

/-- Witness for C4: a builder with no `args` call fails to build, and one
whose only step is `args` with the empty tuple builds successfully. -/
theorem claim_C4_witness :
    (hasArgsStep [Step.call (BuildCall.account "a" 1)] = false ∧
      (runSteps (InstructionBuilder.new 0 "make")
        [Step.call (BuildCall.account "a" 1)]).build =
        Except.error "No instruction data provided. Call .args() before .build()") ∧
    (hasArgsStep [Step.args tupleSer0] = true ∧
      (runSteps (InstructionBuilder.new 0 "make") [Step.args tupleSer0]).build =
        Except.ok ⟨0, [Step.args tupleSer0].filterMap stepMeta,
          calculate_anchor_discriminator "make" ++ (lastArgs [Step.args tupleSer0]).getD []⟩) :=
  ⟨⟨rfl, (claim_C4 0 "make" [Step.call (BuildCall.account "a" 1)]).1 rfl⟩,
   ⟨rfl, (claim_C4 0 "make" [Step.args tupleSer0]).2 rfl⟩⟩

/-- C2: each tuple serializer concatenates the element encodings in position
order, the empty tuple encodes to the empty buffer, and the end-to-end `make`
scenario with 3 accounts and the `u64` triple `(42, 500000000, 1000000000)`
builds an instruction with `8 + 24` data bytes and 3 accounts. -/
theorem claim_C2 :
    tupleSer0 = [] ∧
    (∀ (α : Type) (s1 : α → List Nat) (a : α), tupleSer1 s1 a = s1 a) ∧
    (∀ (α β : Type) (s1 : α → List Nat) (s2 : β → List Nat) (a : α) (b : β),
      tupleSer2 s1 s2 (a, b) = s1 a ++ s2 b) ∧
    (∀ (α β γ : Type) (s1 : α → List Nat) (s2 : β → List Nat) (s3 : γ → List Nat)
      (a : α) (b : β) (c : γ),
      tupleSer3 s1 s2 s3 (a, b, c) = s1 a ++ s2 b ++ s3 c) ∧
    (∀ (α β γ δ : Type) (s1 : α → List Nat) (s2 : β → List Nat) (s3 : γ → List Nat)
      (s4 : δ → List Nat) (a : α) (b : β) (c : γ) (d : δ),
      tupleSer4 s1 s2 s3 s4 (a, b, c, d) = s1 a ++ s2 b ++ s3 c ++ s4 d) ∧
    ((runSteps (InstructionBuilder.new 0 "make")
        [Step.call (BuildCall.signer "maker" ⟨1⟩),
         Step.call (BuildCall.account_mut "escrow" 2),
         Step.call (BuildCall.account "mint_a" 3),
         Step.args (tupleSer3 u64le u64le u64le (42, 500000000, 1000000000))]).build.map
      (fun i => (i.data.length, i.accounts.length)) = Except.ok (8 + 24, 3)) := by
  refine ⟨rfl, fun _ _ _ => rfl, fun _ _ _ _ _ _ => rfl,
    fun _ _ _ _ _ _ _ _ _ => rfl, fun _ _ _ _ _ _ _ _ _ _ _ _ => rfl, ?_⟩
  rw [build_runSteps]
  simp [hasArgsStep, isArgsStep, lastArgs, stepMeta, Except.map,
    List.length_append, discriminator_length, tupleSer3, u64le]

/-- C7: when a name is inserted more than once, `get_account` returns the
metadata of the most recent insertion under that name, while the positional
account list still holds every inserted entry, the shadowed earlier one
included, at its original position. -/
theorem claim_C7 (pid : Pubkey) (nm : String) (cs : List BuildCall) (n : String)
    (h : 2 ≤ (cs.filter (fun c => callName c = n)).length) :
    (runCalls (InstructionBuilder.new pid nm) cs).get_account n =
      (lastCall n cs).map callMeta ∧
    (runCalls (InstructionBuilder.new pid nm) cs).accountsView = cs.map callMeta :=
  ⟨get_account_runCalls pid nm cs n, accountsView_runCalls pid nm cs⟩

/-- Witness for C7: the name `a` is inserted twice; `get_account` sees the
second insertion while both entries stay in the list. -/
theorem claim_C7_witness :
    (2 ≤ ([BuildCall.account "a" 1, BuildCall.account_mut "a" 2].filter
      (fun c => callName c = "a")).length) ∧
    ((runCalls (InstructionBuilder.new 0 "t")
        [BuildCall.account "a" 1, BuildCall.account_mut "a" 2]).get_account "a" =
      (lastCall "a" [BuildCall.account "a" 1, BuildCall.account_mut "a" 2]).map callMeta ∧
    (runCalls (InstructionBuilder.new 0 "t")
        [BuildCall.account "a" 1, BuildCall.account_mut "a" 2]).accountsView =
      [BuildCall.account "a" 1, BuildCall.account_mut "a" 2].map callMeta) :=
  ⟨by decide,
   claim_C7 0 "t" [BuildCall.account "a" 1, BuildCall.account_mut "a" 2] "a" (by decide)⟩

/-- Counterexample to C8 as stated: inserting twice under the name `a` leaves
two entries with the same name in the builder, so the account names of a
reachable state are not pairwise unique. -/
theorem claim_C8_counterexample :
    ¬ (((runCalls (InstructionBuilder.new 0 "x")
        [BuildCall.account "a" 1, BuildCall.account "a" 2]).accounts.map
          Prod.fst).Nodup) := by
  decide

/-- C8, amended: name uniqueness holds for call sequences that never reuse a
name, and in every reachable state the name-to-position map is consistent
with the positional list: each mapped name points at the entry most recently
inserted under that name. -/
theorem claim_C8 (pid : Pubkey) (nm : String) (cs : List BuildCall) :
    ((cs.map callName).Nodup →
      ((runCalls (InstructionBuilder.new pid nm) cs).accounts.map Prod.fst).Nodup) ∧
    (∀ (n : String) (i : Nat),
      (runCalls (InstructionBuilder.new pid nm) cs).account_indices n = some i →
      (runCalls (InstructionBuilder.new pid nm) cs).accounts[i]? =
        (lastCall n cs).map (fun c => (n, callMeta c))) := by
  constructor
  · intro h
    rw [runCalls_accounts]
    simpa [InstructionBuilder.new] using h
  · intro n i hi
    rw [runCalls_indices] at hi
    rw [runCalls_accounts]
    cases hp : lastPos n cs with
    | none => rw [hp] at hi; simp [InstructionBuilder.new] at hi
    | some k =>
      rw [hp] at hi
      simp only [InstructionBuilder.new, List.length_nil, Nat.zero_add,
        Option.some.injEq] at hi
      obtain ⟨c, hc, hget, hn⟩ := lastPos_get n cs k hp
      subst hi
      rw [hc]
      simp [InstructionBuilder.new, List.getElem?_map, hget, hn]

/-- Witness for C8 (amended): a duplicate-free call sequence has pairwise
distinct names, and the mapping for `a` points at its entry. -/
theorem claim_C8_witness :
    ((runCalls (InstructionBuilder.new 0 "x")
      [BuildCall.account "a" 1, BuildCall.account "b" 2]).accounts.map Prod.fst).Nodup ∧
    (runCalls (InstructionBuilder.new 0 "x")
      [BuildCall.account "a" 1, BuildCall.account "b" 2]).accounts[0]? =
      (lastCall "a" [BuildCall.account "a" 1, BuildCall.account "b" 2]).map
        (fun c => ("a", callMeta c)) :=
  ⟨(claim_C8 0 "x" [BuildCall.account "a" 1, BuildCall.account "b" 2]).1 (by decide),
   (claim_C8 0 "x" [BuildCall.account "a" 1, BuildCall.account "b" 2]).2 "a" 0 (by decide)⟩

theorem startsWithL_append (p t : List Char) : startsWithL p (p ++ t) = true := by
  induction p with
  | nil => rfl
  | cons c p ih => simp [startsWithL, ih]

theorem findOcc_first (pat : List Char) (hp : pat ≠ []) :
    ∀ (s : List Char) (i : Nat), (∀ j, j < i → occursAtB pat s j = false) →
      occursAtB pat s i = true → findOcc pat s = some i := by
  intro s
  induction s with
  | nil =>
    intro i _ hi
    exfalso
    cases pat with
    | nil => exact hp rfl
    | cons p ps => simp [occursAtB, startsWithL] at hi
  | cons c t ih =>
    intro i hlt hi
    cases i with
    | zero =>
      have h0 : startsWithL pat (c :: t) = true := hi
      simp [findOcc, h0]
    | succ j =>
      have h0 : startsWithL pat (c :: t) = false := hlt 0 (Nat.succ_pos j)
      have hrec : findOcc pat t = some j :=
        ih j (fun j2 hj2 => hlt (j2 + 1) (by omega)) hi
      simp [findOcc, h0, hrec]

theorem findOcc_none_of_not_contains (pat s : List Char)
    (h : containsSub pat s = false) : findOcc pat s = none := by
  unfold containsSub at h
  cases hf : findOcc pat s with
  | none => rfl
  | some i => rw [hf] at h; simp at h

theorem occursAtB_mid (pat u rest : List Char) :
    occursAtB pat (u ++ pat ++ rest) u.length = true := by
  unfold occursAtB
  rw [List.append_assoc, List.drop_left]
  exact startsWithL_append pat rest

theorem splitGo_no_match (pat : List Char) (f : Nat) (s : List Char)
    (h : findOcc pat s = none) : splitGo pat f s = [s] := by
  cases f with
  | zero => rfl
  | succ f2 => simp only [splitGo]; rw [h]

theorem splitOn_two (pat u rest : List Char) (hp : pat ≠ [])
    (h1 : ∀ j, j < u.length → occursAtB pat (u ++ pat ++ rest) j = false)
    (h2 : containsSub pat rest = false) :
    splitOnSub pat (u ++ pat ++ rest) = [u, rest] := by
  have hfind : findOcc pat (u ++ pat ++ rest) = some u.length :=
    findOcc_first pat hp (u ++ pat ++ rest) u.length h1 (occursAtB_mid pat u rest)
  have hrest : findOcc pat rest = none := findOcc_none_of_not_contains pat rest h2
  have htake : (u ++ pat ++ rest).take u.length = u := by
    rw [List.append_assoc]
    exact List.take_left u (pat ++ rest)
  have hdrop : (u ++ pat ++ rest).drop (u.length + pat.length) = rest := by
    rw [← List.length_append]
    exact List.drop_left (u ++ pat) rest
  unfold splitOnSub
  simp only [splitGo, hfind]
  rw [htake, hdrop, splitGo_no_match pat _ rest hrest]

theorem splitOn_head (pat m rest2 : List Char) (hp : pat ≠ [])
    (h1 : ∀ j, j < m.length → occursAtB pat (m ++ pat ++ rest2) j = false) :
    (splitOnSub pat (m ++ pat ++ rest2)).head? = some m := by
  have hfind : findOcc pat (m ++ pat ++ rest2) = some m.length :=
    findOcc_first pat hp (m ++ pat ++ rest2) m.length h1 (occursAtB_mid pat m rest2)
  have htake : (m ++ pat ++ rest2).take m.length = m := by
    rw [List.append_assoc]
    exact List.take_left m (pat ++ rest2)
  unfold splitOnSub
  simp only [splitGo]
  rw [hfind]
  simp [htake]

theorem extractUnits_shape (u m w : List Char)
    (h1 : ∀ j, j < u.length → occursAtB CONSUMED (u ++ CONSUMED ++ (m ++ OFTOK ++ w)) j = false)
    (h2 : containsSub CONSUMED (m ++ OFTOK ++ w) = false)
    (h3 : ∀ j, j < m.length → occursAtB OFTOK (m ++ OFTOK ++ w) j = false)
    (h4 : containsSub CUNITS (u ++ CONSUMED ++ (m ++ OFTOK ++ w)) = true) :
    extractUnits (u ++ CONSUMED ++ (m ++ OFTOK ++ w)) = parseU64 (trimL m) := by
  have hfind : findOcc CONSUMED (u ++ CONSUMED ++ (m ++ OFTOK ++ w)) = some u.length :=
    findOcc_first CONSUMED (by decide) _ u.length h1 (occursAtB_mid CONSUMED u (m ++ OFTOK ++ w))
  have hcont : containsSub CONSUMED (u ++ CONSUMED ++ (m ++ OFTOK ++ w)) = true := by
    unfold containsSub
    rw [hfind]
    rfl
  have hsplit := splitOn_two CONSUMED u (m ++ OFTOK ++ w) (by decide) h1 h2
  have hhead := splitOn_head OFTOK m w (by decide) h3
  unfold extractUnits
  rw [hcont, h4, hsplit]
  simp only [Bool.and_self, if_true, List.getElem?_cons_succ, List.getElem?_cons_zero]
  rw [hhead]

theorem extractUnits_none (l : List Char)
    (h : ¬(containsSub CONSUMED l = true ∧ containsSub CUNITS l = true)) :
    extractUnits l = none := by
  unfold extractUnits
  have hb : (containsSub CONSUMED l && containsSub CUNITS l) = false := by
    cases h1 : containsSub CONSUMED l <;> cases h2 : containsSub CUNITS l <;> simp_all
  simp [hb]

theorem computeUnits_skip (pre logs : List (List Char))
    (h : ∀ l ∈ pre, extractUnits l = none) :
    computeUnitsLogs (pre ++ logs) = computeUnitsLogs logs := by
  induction pre with
  | nil => rfl
  | cons p pre ih =>
    have hp : extractUnits p = none := h p (by simp)
    simp only [List.cons_append, computeUnitsLogs, hp]
    exact ih (fun l hl => h l (by simp [hl]))

/-- C6: `compute_units()` returns the unsigned integer between the marker
`consumed` and the marker `of` on the first log line containing both the
token `consumed` and the token `compute units`, and returns 0 (not an error)
when no line contains both tokens. -/
theorem claim_C6 :
    (∀ (logs : List (List Char)) (iname : Option String),
      (∀ l ∈ logs, ¬(containsSub CONSUMED l = true ∧ containsSub CUNITS l = true)) →
      TransactionResult.compute_units ⟨⟨logs⟩, iname⟩ = 0) ∧
    (∀ (pre post : List (List Char)) (u m w : List Char) (n : Nat) (iname : Option String),
      (∀ l ∈ pre, ¬(containsSub CONSUMED l = true ∧ containsSub CUNITS l = true)) →
      (∀ j, j < u.length →
        occursAtB CONSUMED (u ++ CONSUMED ++ (m ++ OFTOK ++ w)) j = false) →
      containsSub CONSUMED (m ++ OFTOK ++ w) = false →
      (∀ j, j < m.length → occursAtB OFTOK (m ++ OFTOK ++ w) j = false) →
      containsSub CUNITS (u ++ CONSUMED ++ (m ++ OFTOK ++ w)) = true →
      parseU64 (trimL m) = some n →
      TransactionResult.compute_units
        ⟨⟨pre ++ (u ++ CONSUMED ++ (m ++ OFTOK ++ w)) :: post⟩, iname⟩ = n) := by
  constructor
  · intro logs iname h
    unfold TransactionResult.compute_units
    induction logs with
    | nil => rfl
    | cons l logs ih =>
      have hl : extractUnits l = none := extractUnits_none l (h l (by simp))
      simp only [computeUnitsLogs, hl]
      exact ih (fun l2 hl2 => h l2 (by simp [hl2]))
  · intro pre post u m w n iname h0 h1 h2 h3 h4 h5
    unfold TransactionResult.compute_units
    rw [computeUnits_skip pre _ (fun l hl => extractUnits_none l (h0 l hl))]
    simp only [computeUnitsLogs, extractUnits_shape u m w h1 h2 h3 h4, h5]

/-- Witness for C6: logs with no matching line give 0; a canonically shaped
consumed line gives the parsed number. -/
theorem claim_C6_witness :
    TransactionResult.compute_units ⟨⟨["no matching line here".data]⟩, none⟩ = 0 ∧
    TransactionResult.compute_units
      ⟨⟨["Program X invoke [1]".data] ++
        ("Program X ".data ++ CONSUMED ++
          (" 12345 ".data ++ OFTOK ++ " 200000 compute units".data)) :: []⟩, none⟩ = 12345 :=
  ⟨claim_C6.1 ["no matching line here".data] none (by decide),
   claim_C6.2 ["Program X invoke [1]".data] [] "Program X ".data " 12345 ".data
     " 200000 compute units".data 12345 none (by decide) (by decide) (by decide)
     (by decide) (by decide) (by decide)⟩
